import Mathlib

/-!
Verification development for the multicore batch-job dispatcher
(`multicore-monitor/main.py`).

Modelling conventions:
* Python strings are modelled as `List Char`; `str s` turns a Lean string
  literal into that representation.
* Worksheet cell values are modelled as `Option (List Char)` (`none` is an
  empty cell).  Every status/output operation in the source passes cell
  values through `str()`, so a stringly model is faithful for the
  properties considered here.
* The worksheet is a total function from (row, column) to cell values plus
  the `max_row` bound used by `iter_rows`; `wb.save` is modelled by copying
  the in-memory sheet into the `disk` field of the scheduler state.
* The process pool is modelled by an oracle: for each submission index the
  oracle either yields the data the worker run produced (`some env`) or
  reports that `fut.result()` raised (`none`).  `wait(..., FIRST_COMPLETED)`
  together with the iteration over the `done` set is modelled by a schedule:
  a list of positions into the in-flight list, each processed exactly like
  one pass of the body of the inner `for fut in done` loop.
-/

namespace MCM

/-- Python strings, modelled as lists of characters. -/
abbrev Str := List Char

/-- Turn a Lean string literal into the model representation. -/
def str (s : String) : Str := s.toList

/-- Whitespace test used by Python's `str.strip` (ASCII fragment). -/
def isWs (c : Char) : Bool := c.isWhitespace

/-- Python `str.strip`, left part. -/
def stripLeft (l : Str) : Str := l.dropWhile isWs

/-- Python `str.strip`, right part. -/
def stripRight (l : Str) : Str := (l.reverse.dropWhile isWs).reverse

/-- Python `str.strip`. -/
def pyStrip (l : Str) : Str := stripRight (stripLeft l)

/-- Python `str.lower` (character-wise). -/
def pyLower (l : Str) : Str := l.map Char.toLower

/-- Python `str(x)` for an optional cell value: `None` prints as `"None"`. -/
def pyStrOpt : Option Str → Str
  | none => str "None"
  | some s => s

/-- Python truthiness of a cell value: `None` and `""` are falsy. -/
def truthy : Option Str → Bool
  | none => false
  | some s => !s.isEmpty

/-- `str(v).strip().lower()`, the normalization applied to status cells. -/
def statusLower (v : Option Str) : Str := pyLower (pyStrip (pyStrOpt v))

/-- Decimal digit run to a number (`none` if empty or a non-digit occurs). -/
def digitsCore : Str → Nat → Option Nat
  | [], acc => some acc
  | c :: rest, acc =>
      if c.isDigit then digitsCore rest (acc * 10 + (c.toNat - 48)) else none

/-- Parse a nonempty all-digit string. -/
def digitsToNat (l : Str) : Option Nat :=
  if l.isEmpty then none else digitsCore l 0

/-- Python `int(s)` on a string: optional sign then decimal digits
(surrounding whitespace stripped).  Underscore separators and non-ASCII
digits accepted by CPython are not modelled; no claim depends on them. -/
def pyInt (s : Str) : Option Int :=
  match pyStrip s with
  | '-' :: rest => (digitsToNat rest).map (fun n => -(n : Int))
  | '+' :: rest => (digitsToNat rest).map (fun n => (n : Int))
  | l => (digitsToNat l).map (fun n => (n : Int))

/-- Decimal rendering of a row number, as in `f"UNKNOWN_{row_idx}"`. -/
def natStr (n : Nat) : Str := (Nat.repr n).toList

/-! ### Config loader (`load_config`) -/

/-- The two fatal conditions `load_config` can hit before `sys.exit(1)`. -/
inductive ConfigError where
  | tooFewLines
  | badInt
deriving DecidableEq

/-- `[line.strip() for line in f if line.strip()]`. -/
def cleanLines (fileLines : List Str) : List Str :=
  (fileLines.map pyStrip).filter (fun l => !l.isEmpty)

/-- `load_config` from `main.py`: needs at least two non-empty stripped
lines, converts the first with `int(...)`, and returns it with the second
line.  Any failure is `sys.exit(1)`, modelled as `Except.error`. -/
def load_config (fileLines : List Str) : Except ConfigError (Int × Str) :=
  let lines := cleanLines fileLines
  if lines.length < 2 then Except.error ConfigError.tooFewLines
  else
    match pyInt (lines.getD 0 []) with
    | some n => Except.ok (n, lines.getD 1 [])
    | none => Except.error ConfigError.badInt

/-- Amended specification of the config loader, written from the corrected
claim wording: it fails exactly when fewer than two non-empty stripped
lines are present or the first line does not parse as an integer; any
parseable integer (zero and negatives included) is accepted. -/
def loadConfigSpec (fileLines : List Str) : Except ConfigError (Int × Str) :=
  match cleanLines fileLines with
  | l0 :: l1 :: _ =>
      match pyInt l0 with
      | some n => Except.ok (n, l1)
      | none => Except.error ConfigError.badInt
  | _ => Except.error ConfigError.tooFewLines

/-! ### Worksheet model -/

/-- An openpyxl worksheet: total cell map plus the `max_row` bound. -/
structure Ws where
  cells : Nat → Nat → Option Str
  maxRow : Nat

/-- `ws.cell(row=r, column=c).value = v`. -/
def setCell (w : Ws) (r c : Nat) (v : Option Str) : Ws :=
  { cells := fun r' c' => if r' = r ∧ c' = c then v else w.cells r' c',
    maxRow := w.maxRow }

/-- Write a list of values into consecutive columns of one row
(the `for i, val in enumerate(...)` pattern used both for the status
headers and for the output fields). -/
def writeCells : Ws → Nat → Nat → List Str → Ws
  | w, _, _, [] => w
  | w, row, col, v :: vs => writeCells (setCell w row col (some v)) row (col + 1) vs

/-- Clear `n` consecutive columns of one row (`value = None`). -/
def clearCells : Ws → Nat → Nat → Nat → Ws
  | w, _, _, 0 => w
  | w, row, col, n + 1 => clearCells (setCell w row col none) row (col + 1) n

/-- The data rows of the sheet: `iter_rows(min_row=2, max_row=ws.max_row)`. -/
def wsRows (w : Ws) : List Nat := List.range' 2 (w.maxRow - 1)

/-- `STATUS_COL_HEADERS` from `main.py`. -/
def STATUS_COL_HEADERS : List Str :=
  [str "Status", str "Start Time", str "End Time", str "CPU Core Used", str "Output"]

/-- `ensure_status_columns`: write the five fixed headers into row 1
starting at `startCol`.  The returned column indices of the source are the
arithmetic facts `status = startCol`, ..., `next_after_status = startCol + 5`,
used directly at the call sites below. -/
def ensure_status_columns (w : Ws) (startCol : Nat) : Ws :=
  writeCells w 1 startCol STATUS_COL_HEADERS

/-- Body of the `reset_running_on_resume` loop for one row. -/
def resetStep (sc : Nat) (w : Ws) (r : Nat) : Ws :=
  if statusLower (w.cells r sc) = str "running"
  then setCell w r sc (some (str "pending")) else w

/-- The `reset_running_on_resume` loop over a given row list. -/
def resetFold (sc : Nat) (rows : List Nat) (w : Ws) : Ws :=
  rows.foldl (resetStep sc) w

/-- `reset_running_on_resume` from `main.py`. -/
def reset_running_on_resume (w : Ws) (sc : Nat) : Ws :=
  resetFold sc (wsRows w) w

/-- `str(v).strip().lower() if v else ""`, from the status-normalization
loop of `main`. -/
def normVal (v : Option Str) : Str :=
  if truthy v then statusLower v else []

/-- Condition for the `main` loop that marks empty/unknown statuses as
pending: the computed value is not one of pending/running/completed. -/
abbrev normCond (v : Option Str) : Prop :=
  normVal v ≠ str "pending" ∧ normVal v ≠ str "running" ∧ normVal v ≠ str "completed"

/-- Body of the mark-unknown-as-pending loop for one row. -/
def normStep (sc : Nat) (w : Ws) (r : Nat) : Ws :=
  if normCond (w.cells r sc) then setCell w r sc (some (str "pending")) else w

/-- The mark-unknown-as-pending loop over a given row list. -/
def normFold (sc : Nat) (rows : List Nat) (w : Ws) : Ws :=
  rows.foldl (normStep sc) w

/-- The `batches` list of `main`: for every data row, the row number paired
with the first `icc` input-cell values (openpyxl columns are 1-based). -/
def buildBatches (w : Ws) (icc : Nat) : List (Nat × List (Option Str)) :=
  (wsRows w).map (fun r => (r, (List.range icc).map (fun j => w.cells r (j + 1))))

/-- The `pending_batches` filter of `main`. -/
def pendingOf (w : Ws) (sc : Nat) (batches : List (Nat × List (Option Str))) :
    List (Nat × List (Option Str)) :=
  batches.filter (fun p => decide (statusLower (w.cells p.1 sc) = str "pending"))

/-! ### Executor adapter (`run_exe_on_batch`, `process_batch`) -/

/-- What `subprocess.run(..., check=True)` did: a normal zero-exit run with
captured stdout/stderr, or a raised exception (non-zero exit, launch
failure, ...) carrying the exception text, the formatted traceback and any
captured stderr. -/
inductive ProcResult where
  | ok (stdout stderr : Str)
  | exn (msg tb stderr : Str)

/-- `run_exe_on_batch`: returns the captured output, or on any exception an
error-annotated stdout payload `f"[ERROR] Exception: {e}\n{tb}\n{stderr}"`.
It never propagates the exception. -/
def run_exe_on_batch : ProcResult → Str × Str
  | ProcResult.ok out err => (out, err)
  | ProcResult.exn msg tb stderr =>
      (str "[ERROR] Exception: " ++ msg ++ str "\n" ++ tb ++ str "\n" ++ stderr, stderr)

/-- The nondeterministic environment of one worker run: subprocess result,
the two wall-clock timestamps, and whether writing the artifact file raised
(`some e` carries the exception text). -/
structure ExecEnv where
  proc : ProcResult
  startTime : Str
  stopTime : Str
  writeErr : Option Str

/-- `case_id` of `process_batch`: input field at fixed index 11 when present
and truthy, else the `UNKNOWN_<row>` placeholder. -/
def case_id (row : Nat) (inputs : List (Option Str)) : Str :=
  match inputs.get? 11 with
  | some v => if truthy v then pyStrOpt v else str "UNKNOWN_" ++ natStr row
  | none => str "UNKNOWN_" ++ natStr row

/-- The artifact file name `f"{case_id}.txt"`. -/
def out_fname (row : Nat) (inputs : List (Option Str)) : Str :=
  case_id row inputs ++ str ".txt"

/-- The tuple `process_batch` returns, plus the artifact file name it
wrote. -/
structure BatchResult where
  row : Nat
  status : Str
  startTime : Str
  stopTime : Str
  core : Str
  output : Str
  artifact : Str

/-- `process_batch` from `main.py`: runs the executable via
`run_exe_on_batch`, appends a note if the artifact write failed, and always
returns the tuple `(row, "completed", start, end, "Core <k+1>", outs)`. -/
def process_batch (row : Nat) (inputs : List (Option Str)) (core : Nat)
    (env : ExecEnv) : BatchResult :=
  let outs := (run_exe_on_batch env.proc).fst
  let outs2 :=
    match env.writeErr with
    | some e => outs ++ str "\n[ERROR writing output file]: " ++ e
    | none => outs
  { row := row, status := str "completed", startTime := env.startTime,
    stopTime := env.stopTime, core := str "Core " ++ natStr (core + 1),
    output := outs2, artifact := out_fname row inputs }

/-! ### Result writer (the commit block of the scheduler loop) -/

/-- Python `s.split(sep)` for a one-character separator: split on every
occurrence, never collapsing; always returns a nonempty list. -/
def pySplit (sep : Char) : Str → List Str
  | [] => [[]]
  | c :: rest =>
      let r := pySplit sep rest
      if c = sep then [] :: r
      else
        match r with
        | f :: rs => (c :: f) :: rs
        | [] => [[c]]

/-- `full_output.strip().split('\n')[0] if full_output else ""`. -/
def firstLineOf (out : Str) : Str :=
  if out.isEmpty then [] else (pyStrip out).takeWhile (fun c => c ≠ '\n')

/-- `first_line.split('\t') if first_line else []`. -/
def outputFieldsOf (out : Str) : List Str :=
  let fl := firstLineOf out
  if fl.isEmpty then [] else pySplit '\t' fl

/-- The commit block of `main`'s scheduler loop (lines writing one result
back): status, both timestamps, core id, empty `Output` cell, clear the 50
output-field columns, then write every tab field of the first output line
(note: the write loop is unbounded). -/
def commitResult (sc : Nat) (w : Ws) (b : BatchResult) : Ws :=
  let w1 := setCell w b.row sc (some b.status)
  let w2 := setCell w1 b.row (sc + 1) (some b.startTime)
  let w3 := setCell w2 b.row (sc + 2) (some b.stopTime)
  let w4 := setCell w3 b.row (sc + 3) (some b.core)
  let w5 := setCell w4 b.row (sc + 4) (some [])
  let w6 := clearCells w5 b.row (sc + 5) 50
  writeCells w6 b.row (sc + 5) (outputFieldsOf b.output)

/-! ### Worker pool scheduler -/

/-- Fixed data of one dispatcher run. -/
structure Params where
  nCores : Nat
  statusCol : Nat
  pending : List (Nat × List (Option Str))
  oracle : Nat → Option ExecEnv

/-- Mutable state of the scheduler loop: in-memory sheet, last saved sheet,
the indices (into `pending`) of live futures, and `next_to_submit`. -/
structure SchedState where
  ws : Ws
  disk : Ws
  inflight : List Nat
  nextToSubmit : Nat

/-- One submission: mark the row running, `wb.save`, then submit the future
(recorded by its pending-list index) and advance `next_to_submit`.  When
no pending item is left this is the source's `if next_to_submit < len(...)`
guard failing, i.e. a no-op. -/
def submitNext (P : Params) (s : SchedState) : SchedState :=
  match P.pending.get? s.nextToSubmit with
  | none => s
  | some p =>
      let w := setCell s.ws p.1 P.statusCol (some (str "running"))
      { ws := w, disk := w, inflight := s.inflight ++ [s.nextToSubmit],
        nextToSubmit := s.nextToSubmit + 1 }

/-- One pass of the body of `for fut in done`: `j` selects the completed
future among the live ones.  If `fut.result()` raised (oracle `none`) the
row is marked `error`, saved, and the future popped — the source `continue`
skips the resubmission block.  Otherwise the result tuple is committed,
saved, the future popped, and the next pending item (if any) submitted. -/
def completeStep (P : Params) (s : SchedState) (j : Nat) : SchedState :=
  match s.inflight.get? j with
  | none => s
  | some idx =>
      match P.pending.get? idx with
      | none => s
      | some p =>
          match P.oracle idx with
          | none =>
              let w := setCell s.ws p.1 P.statusCol (some (str "error"))
              { ws := w, disk := w, inflight := s.inflight.eraseIdx j,
                nextToSubmit := s.nextToSubmit }
          | some env =>
              let b := process_batch p.1 p.2 (idx % P.nCores) env
              let w := commitResult P.statusCol s.ws b
              submitNext P
                { ws := w, disk := w, inflight := s.inflight.eraseIdx j,
                  nextToSubmit := s.nextToSubmit }

/-- The initial-submission loop, unrolled `k` times
(`while next_to_submit < min(n_cores, len(pending_batches))`). -/
def initSubmit (P : Params) : Nat → SchedState → SchedState
  | 0, s => s
  | k + 1, s => initSubmit P k (submitNext P s)

/-- The completion-driven loop, driven by a schedule of completions. -/
def runSched (P : Params) : SchedState → List Nat → SchedState
  | s, [] => s
  | s, j :: rest => runSched P (completeStep P s j) rest

/-! ### `main` assembled -/

/-- Sheet after `ensure_status_columns(ws, input_col_count + 1)`. -/
def mainWs1 (icc : Nat) (ws0 : Ws) : Ws :=
  ensure_status_columns ws0 (icc + 1)

/-- Sheet after `reset_running_on_resume` (saved at this point). -/
def mainWs2 (icc : Nat) (ws0 : Ws) : Ws :=
  reset_running_on_resume (mainWs1 icc ws0) (icc + 1)

/-- The `batches` list of `main`. -/
def mainBatches (icc : Nat) (ws0 : Ws) : List (Nat × List (Option Str)) :=
  buildBatches (mainWs2 icc ws0) icc

/-- Sheet after the mark-unknown-as-pending loop (saved at this point). -/
def mainWs3 (icc : Nat) (ws0 : Ws) : Ws :=
  normFold (icc + 1) ((mainBatches icc ws0).map Prod.fst) (mainWs2 icc ws0)

/-- The `pending_batches` list of `main`. -/
def mainPending (icc : Nat) (ws0 : Ws) : List (Nat × List (Option Str)) :=
  pendingOf (mainWs3 icc ws0) (icc + 1) (mainBatches icc ws0)

/-- The fixed scheduler parameters a run of `main` uses. -/
def mainParams (icc nCores : Nat) (oracle : Nat → Option ExecEnv) (ws0 : Ws) : Params :=
  { nCores := nCores, statusCol := icc + 1, pending := mainPending icc ws0,
    oracle := oracle }

/-- Scheduler state right after the two reconciliation saves, before any
submission. -/
def mainInitState (icc : Nat) (ws0 : Ws) : SchedState :=
  { ws := mainWs3 icc ws0, disk := mainWs3 icc ws0, inflight := [],
    nextToSubmit := 0 }

/-- A run of `main` stopped after `k` initial submissions and the given
completion schedule (used to speak about every intermediate point). -/
def mainRunK (icc nCores : Nat) (oracle : Nat → Option ExecEnv) (ws0 : Ws)
    (k : Nat) (schedule : List Nat) : SchedState :=
  runSched (mainParams icc nCores oracle ws0)
    (initSubmit (mainParams icc nCores oracle ws0) k (mainInitState icc ws0))
    schedule

/-- A full run of `main`: all `min(n_cores, len(pending_batches))` initial
submissions, then the completion loop along `schedule`. -/
def mainRun (icc nCores : Nat) (oracle : Nat → Option ExecEnv) (ws0 : Ws)
    (schedule : List Nat) : SchedState :=
  mainRunK icc nCores oracle ws0 (min nCores (mainPending icc ws0).length) schedule

/-- The row a pending-list index denotes. -/
def rowOf (P : Params) (i : Nat) : Nat :=
  ((P.pending.get? i).map Prod.fst).getD 0

/-- Row `r` currently shows status `running`. -/
abbrev runningAt (w : Ws) (sc r : Nat) : Prop :=
  statusLower (w.cells r sc) = str "running"

/-- Number of data rows currently showing status `running`. -/
def countRunning (w : Ws) (sc : Nat) : Nat :=
  ((wsRows w).filter (fun r => decide (runningAt w sc r))).length

/-! ### Concrete stores and oracles used as test inputs -/

/-- The everything-empty worksheet. -/
def wsEmpty : Ws := { cells := fun _ _ => none, maxRow := 0 }

/-- Every submitted future raises when its result is collected. -/
def oracleFault : Nat → Option ExecEnv := fun _ => none

/-- A worker environment for a successful run printing `out`. -/
def envOk (out : Str) : ExecEnv :=
  { proc := ProcResult.ok out [], startTime := str "t0", stopTime := str "t1",
    writeErr := none }

/-- A worker environment whose subprocess raised. -/
def envExn : ExecEnv :=
  { proc := ProcResult.exn (str "boom") (str "Traceback") (str "err"),
    startTime := str "t0", stopTime := str "t1", writeErr := none }

/-- Two data rows, both already `pending`, one input column. -/
def ws0A : Ws :=
  { cells := fun r c =>
      if r = 2 ∧ c = 1 then some (str "a")
      else if r = 3 ∧ c = 1 then some (str "b")
      else if r = 2 ∧ c = 2 then some (str "pending")
      else if r = 3 ∧ c = 2 then some (str "pending")
      else none,
    maxRow := 3 }

/-- Two data rows with unset statuses, one input column. -/
def ws0B : Ws :=
  { cells := fun r c =>
      if r = 2 ∧ c = 1 then some (str "a")
      else if r = 3 ∧ c = 1 then some (str "b")
      else none,
    maxRow := 3 }

/-- One data row, already `completed`, header cells empty. -/
def ws0C : Ws :=
  { cells := fun r c => if r = 2 ∧ c = 2 then some (str "completed") else none,
    maxRow := 2 }

/-- One `running` row and one `error` row (crash-resume shape). -/
def ws0D : Ws :=
  { cells := fun r c =>
      if r = 2 ∧ c = 2 then some (str "running")
      else if r = 3 ∧ c = 2 then some (str "error")
      else none,
    maxRow := 3 }

/-- `n+1` copies of `"x"` joined by tabs. -/
def tabXs : Nat → Str
  | 0 => ['x']
  | n + 1 => 'x' :: '\t' :: tabXs n

/-- A result whose first output line has 51 tab-separated fields. -/
def b51 : BatchResult :=
  { row := 2, status := str "completed", startTime := [], stopTime := [],
    core := [], output := tabXs 50, artifact := [] }

/-- A sheet whose row 2 already carries a five-field output region. -/
def wsStale : Ws :=
  { cells := fun r c =>
      if r = 2 ∧ 7 ≤ c ∧ c ≤ 11 then some (str "old") else none,
    maxRow := 2 }

/-- A result whose first output line has exactly two tab-separated fields. -/
def bAB : BatchResult :=
  { row := 2, status := str "completed", startTime := [], stopTime := [],
    core := [], output := str "a\tb", artifact := [] }

/-! ### Verification-side predicates -/

/-- Well-formedness of scheduler parameters: the pending list names
pairwise-distinct data rows lying in `[2, M]`. -/
def ParamsWf (P : Params) (M : Nat) : Prop :=
  (P.pending.map Prod.fst).Nodup ∧ ∀ p ∈ P.pending, 2 ≤ p.1 ∧ p.1 ≤ M

/-- Core scheduler invariant: the sheet bound is stable, `next_to_submit`
never runs past the pending list, live futures have pairwise-distinct
already-submitted indices, and a data row shows `running` exactly when one
live future owns it. -/
def Inv (P : Params) (M : Nat) (s : SchedState) : Prop :=
  s.ws.maxRow = M ∧
  s.nextToSubmit ≤ P.pending.length ∧
  s.inflight.Nodup ∧
  (∀ i ∈ s.inflight, i < s.nextToSubmit) ∧
  (∀ r, 2 ≤ r → r ≤ M →
    (runningAt s.ws P.statusCol r ↔ ∃ i ∈ s.inflight, rowOf P i = r))

/-! ## Characterization lemmas for the cell-update primitives -/

theorem setCell_cells (w : Ws) (r c : Nat) (v : Option Str) (r' c' : Nat) :
    (setCell w r c v).cells r' c' = if r' = r ∧ c' = c then v else w.cells r' c' := rfl

theorem setCell_maxRow (w : Ws) (r c : Nat) (v : Option Str) :
    (setCell w r c v).maxRow = w.maxRow := rfl

theorem writeCells_maxRow (vs : List Str) :
    ∀ (w : Ws) (row col : Nat), (writeCells w row col vs).maxRow = w.maxRow := by
  induction vs with
  | nil => intro w row col; rfl
  | cons v vs ih => intro w row col; exact ih _ row (col + 1)

theorem clearCells_maxRow (n : Nat) :
    ∀ (w : Ws) (row col : Nat), (clearCells w row col n).maxRow = w.maxRow := by
  induction n with
  | zero => intro w row col; rfl
  | succ n ih => intro w row col; exact ih _ row (col + 1)

theorem writeCells_cells (vs : List Str) :
    ∀ (w : Ws) (row col r c : Nat),
      (writeCells w row col vs).cells r c =
        if r = row ∧ col ≤ c ∧ c < col + vs.length
        then some (vs.getD (c - col) []) else w.cells r c := by
  induction vs with
  | nil =>
    intro w row col r c
    rw [writeCells, List.length_nil, if_neg (by omega)]
  | cons v vs ih =>
    intro w row col r c
    have e : writeCells w row col (v :: vs) =
        writeCells (setCell w row col (some v)) row (col + 1) vs := rfl
    rw [e, ih, setCell_cells, List.length_cons]
    by_cases h1 : r = row ∧ col + 1 ≤ c ∧ c < col + 1 + vs.length
    · obtain ⟨ha, hb, hc⟩ := h1
      rw [if_pos ⟨ha, hb, hc⟩, if_pos ⟨ha, by omega, by omega⟩]
      have hidx : c - col = (c - (col + 1)) + 1 := by omega
      rw [hidx, List.getD_cons_succ]
    · rw [if_neg h1]
      by_cases h2 : r = row ∧ c = col
      · obtain ⟨ha, hb⟩ := h2
        rw [if_pos ⟨ha, hb⟩, if_pos ⟨ha, by omega, by omega⟩]
        have hidx : c - col = 0 := by omega
        rw [hidx, List.getD_cons_zero]
      · rw [if_neg h2, if_neg (by
          rintro ⟨ha, hb, hc⟩
          by_cases hce : c = col
          · exact h2 ⟨ha, hce⟩
          · exact h1 ⟨ha, by omega, by omega⟩)]

theorem clearCells_cells (n : Nat) :
    ∀ (w : Ws) (row col r c : Nat),
      (clearCells w row col n).cells r c =
        if r = row ∧ col ≤ c ∧ c < col + n then none else w.cells r c := by
  induction n with
  | zero =>
    intro w row col r c
    rw [clearCells, if_neg (by omega)]
  | succ n ih =>
    intro w row col r c
    have e : clearCells w row col (n + 1) =
        clearCells (setCell w row col none) row (col + 1) n := rfl
    rw [e, ih, setCell_cells]
    by_cases h1 : r = row ∧ col + 1 ≤ c ∧ c < col + 1 + n
    · obtain ⟨ha, hb, hc⟩ := h1
      rw [if_pos ⟨ha, hb, hc⟩, if_pos ⟨ha, by omega, by omega⟩]
    · rw [if_neg h1]
      by_cases h2 : r = row ∧ c = col
      · rw [if_pos h2, if_pos ⟨h2.1, by omega, by omega⟩]
      · rw [if_neg h2, if_neg (by
          rintro ⟨ha, hb, hc⟩
          by_cases hce : c = col
          · exact h2 ⟨ha, hce⟩
          · exact h1 ⟨ha, by omega, by omega⟩)]

/-! ## Characterization of the result-commit block -/

theorem commit_maxRow (sc : Nat) (w : Ws) (b : BatchResult) :
    (commitResult sc w b).maxRow = w.maxRow := by
  simp only [commitResult]
  rw [writeCells_maxRow, clearCells_maxRow]
  rfl

theorem commit_frame (sc : Nat) (w : Ws) (b : BatchResult) (r c : Nat)
    (h : r ≠ b.row) : (commitResult sc w b).cells r c = w.cells r c := by
  simp only [commitResult]
  rw [writeCells_cells, if_neg (fun hh => h hh.1),
      clearCells_cells, if_neg (fun hh => h hh.1),
      setCell_cells, if_neg (fun hh => h hh.1),
      setCell_cells, if_neg (fun hh => h hh.1),
      setCell_cells, if_neg (fun hh => h hh.1),
      setCell_cells, if_neg (fun hh => h hh.1),
      setCell_cells, if_neg (fun hh => h hh.1)]

theorem commit_status (sc : Nat) (w : Ws) (b : BatchResult) :
    (commitResult sc w b).cells b.row sc = some b.status := by
  simp only [commitResult]
  rw [writeCells_cells, if_neg (by rintro ⟨-, hh, -⟩; omega),
      clearCells_cells, if_neg (by rintro ⟨-, hh, -⟩; omega),
      setCell_cells, if_neg (by rintro ⟨-, hh⟩; omega),
      setCell_cells, if_neg (by rintro ⟨-, hh⟩; omega),
      setCell_cells, if_neg (by rintro ⟨-, hh⟩; omega),
      setCell_cells, if_neg (by rintro ⟨-, hh⟩; omega),
      setCell_cells, if_pos ⟨rfl, rfl⟩]

theorem commit_out (sc : Nat) (w : Ws) (b : BatchResult) (i : Nat) :
    (commitResult sc w b).cells b.row (sc + 5 + i) =
      if i < (outputFieldsOf b.output).length
      then some ((outputFieldsOf b.output).getD i [])
      else if i < 50 then none else w.cells b.row (sc + 5 + i) := by
  simp only [commitResult]
  rw [writeCells_cells, clearCells_cells]
  by_cases h1 : i < (outputFieldsOf b.output).length
  · rw [if_pos ⟨rfl, by omega, by omega⟩, if_pos h1]
    have hidx : sc + 5 + i - (sc + 5) = i := by omega
    rw [hidx]
  · rw [if_neg (by rintro ⟨-, -, hh⟩; omega), if_neg h1]
    by_cases h2 : i < 50
    · rw [if_pos ⟨rfl, by omega, by omega⟩, if_pos h2]
    · rw [if_neg (by rintro ⟨-, -, hh⟩; omega), if_neg h2,
          setCell_cells, if_neg (by rintro ⟨-, hh⟩; omega),
          setCell_cells, if_neg (by rintro ⟨-, hh⟩; omega),
          setCell_cells, if_neg (by rintro ⟨-, hh⟩; omega),
          setCell_cells, if_neg (by rintro ⟨-, hh⟩; omega),
          setCell_cells, if_neg (by rintro ⟨-, hh⟩; omega)]

/-! ## Characterization of the two reconciliation loops -/

theorem resetFold_maxRow (sc : Nat) (rows : List Nat) :
    ∀ (w : Ws), (resetFold sc rows w).maxRow = w.maxRow := by
  induction rows with
  | nil => intro w; rfl
  | cons a t ih =>
    intro w
    have e : resetFold sc (a :: t) w = resetFold sc t (resetStep sc w a) := rfl
    rw [e, ih]
    unfold resetStep
    split <;> rfl

theorem normFold_maxRow (sc : Nat) (rows : List Nat) :
    ∀ (w : Ws), (normFold sc rows w).maxRow = w.maxRow := by
  induction rows with
  | nil => intro w; rfl
  | cons a t ih =>
    intro w
    have e : normFold sc (a :: t) w = normFold sc t (normStep sc w a) := rfl
    rw [e, ih]
    unfold normStep
    split <;> rfl

theorem resetFold_cells (sc : Nat) (rows : List Nat) :
    ∀ (w : Ws) (r c : Nat),
      (resetFold sc rows w).cells r c =
        if r ∈ rows ∧ c = sc ∧ statusLower (w.cells r sc) = str "running"
        then some (str "pending") else w.cells r c := by
  induction rows with
  | nil =>
    intro w r c
    rw [if_neg (by rintro ⟨hh, -⟩; exact (List.not_mem_nil r) hh)]
    rfl
  | cons a t ih =>
    intro w r c
    have e : resetFold sc (a :: t) w = resetFold sc t (resetStep sc w a) := rfl
    rw [e, ih]
    unfold resetStep
    by_cases hrun : statusLower (w.cells a sc) = str "running"
    · rw [if_pos hrun]
      by_cases hra : r = a
      · subst hra
        have hcell : (setCell w r sc (some (str "pending"))).cells r sc =
            some (str "pending") := by
          rw [setCell_cells, if_pos ⟨rfl, rfl⟩]
        rw [hcell]
        have hpend : statusLower (some (str "pending")) ≠ str "running" := by decide
        rw [if_neg (by rintro ⟨-, -, hh⟩; exact hpend hh), setCell_cells]
        by_cases hc : c = sc
        · subst hc
          rw [if_pos ⟨rfl, rfl⟩, if_pos ⟨List.mem_cons_self r t, rfl, hrun⟩]
        · rw [if_neg (by rintro ⟨-, hh⟩; exact hc hh),
              if_neg (by rintro ⟨-, hh, -⟩; exact hc hh)]
      · have hcell : ∀ c', (setCell w a sc (some (str "pending"))).cells r c' =
            w.cells r c' := by
          intro c'
          rw [setCell_cells, if_neg (by rintro ⟨hh, -⟩; exact hra hh)]
        rw [hcell, hcell]
        exact if_congr (by simp [List.mem_cons, hra]) rfl rfl
    · rw [if_neg hrun]
      by_cases hra : r = a
      · subst hra
        rw [if_neg (by rintro ⟨-, -, hh⟩; exact hrun hh),
            if_neg (by rintro ⟨-, -, hh⟩; exact hrun hh)]
      · exact if_congr (by simp [List.mem_cons, hra]) rfl rfl

theorem normFold_cells (sc : Nat) (rows : List Nat) :
    ∀ (w : Ws) (r c : Nat),
      (normFold sc rows w).cells r c =
        if r ∈ rows ∧ c = sc ∧ normCond (w.cells r sc)
        then some (str "pending") else w.cells r c := by
  induction rows with
  | nil =>
    intro w r c
    rw [if_neg (by rintro ⟨hh, -⟩; exact (List.not_mem_nil r) hh)]
    rfl
  | cons a t ih =>
    intro w r c
    have e : normFold sc (a :: t) w = normFold sc t (normStep sc w a) := rfl
    rw [e, ih]
    unfold normStep
    by_cases hcond : normCond (w.cells a sc)
    · rw [if_pos hcond]
      by_cases hra : r = a
      · subst hra
        have hcell : (setCell w r sc (some (str "pending"))).cells r sc =
            some (str "pending") := by
          rw [setCell_cells, if_pos ⟨rfl, rfl⟩]
        rw [hcell]
        have hpend : ¬ normCond (some (str "pending")) := by decide
        rw [if_neg (by rintro ⟨-, -, hh⟩; exact hpend hh), setCell_cells]
        by_cases hc : c = sc
        · subst hc
          rw [if_pos ⟨rfl, rfl⟩, if_pos ⟨List.mem_cons_self r t, rfl, hcond⟩]
        · rw [if_neg (by rintro ⟨-, hh⟩; exact hc hh),
              if_neg (by rintro ⟨-, hh, -⟩; exact hc hh)]
      · have hcell : ∀ c', (setCell w a sc (some (str "pending"))).cells r c' =
            w.cells r c' := by
          intro c'
          rw [setCell_cells, if_neg (by rintro ⟨hh, -⟩; exact hra hh)]
        rw [hcell, hcell]
        exact if_congr (by simp [List.mem_cons, hra]) rfl rfl
    · rw [if_neg hcond]
      by_cases hra : r = a
      · subst hra
        rw [if_neg (by rintro ⟨-, -, hh⟩; exact hcond hh),
            if_neg (by rintro ⟨-, -, hh⟩; exact hcond hh)]
      · exact if_congr (by simp [List.mem_cons, hra]) rfl rfl

/-! ## Facts about the startup pipeline of `main` -/

theorem mainWs1_maxRow (icc : Nat) (ws0 : Ws) :
    (mainWs1 icc ws0).maxRow = ws0.maxRow := by
  unfold mainWs1 ensure_status_columns
  rw [writeCells_maxRow]

theorem mainWs2_maxRow (icc : Nat) (ws0 : Ws) :
    (mainWs2 icc ws0).maxRow = ws0.maxRow := by
  unfold mainWs2 reset_running_on_resume
  rw [resetFold_maxRow, mainWs1_maxRow]

theorem mainWs3_maxRow (icc : Nat) (ws0 : Ws) :
    (mainWs3 icc ws0).maxRow = ws0.maxRow := by
  unfold mainWs3
  rw [normFold_maxRow, mainWs2_maxRow]

theorem mainWs1_cells_ne1 (icc : Nat) (ws0 : Ws) (r c : Nat) (h : r ≠ 1) :
    (mainWs1 icc ws0).cells r c = ws0.cells r c := by
  unfold mainWs1 ensure_status_columns
  rw [writeCells_cells, if_neg (fun hh => h hh.1)]

theorem mainRows (icc : Nat) (ws0 : Ws) :
    wsRows (mainWs2 icc ws0) = List.range' 2 (ws0.maxRow - 1) := by
  unfold wsRows
  rw [mainWs2_maxRow]

theorem mainBatches_fst (icc : Nat) (ws0 : Ws) :
    (mainBatches icc ws0).map Prod.fst = List.range' 2 (ws0.maxRow - 1) := by
  unfold mainBatches buildBatches
  rw [List.map_map, mainRows]
  simp [Function.comp_def]

theorem mainWs2_cells_data (icc : Nat) (ws0 : Ws) (r c : Nat)
    (h2 : 2 ≤ r) (hM : r ≤ ws0.maxRow) :
    (mainWs2 icc ws0).cells r c =
      if c = icc + 1 ∧ statusLower (ws0.cells r (icc + 1)) = str "running"
      then some (str "pending") else ws0.cells r c := by
  unfold mainWs2 reset_running_on_resume
  rw [resetFold_cells]
  have hr1 : r ≠ 1 := by omega
  have hem : r ∈ wsRows (mainWs1 icc ws0) := by
    unfold wsRows
    rw [mainWs1_maxRow, List.mem_range'_1]
    omega
  rw [mainWs1_cells_ne1 icc ws0 r (icc + 1) hr1, mainWs1_cells_ne1 icc ws0 r c hr1]
  exact if_congr (by simp [hem]) rfl rfl

theorem mainWs3_cells_data (icc : Nat) (ws0 : Ws) (r c : Nat)
    (h2 : 2 ≤ r) (hM : r ≤ ws0.maxRow) :
    (mainWs3 icc ws0).cells r c =
      if c = icc + 1 ∧ normCond ((mainWs2 icc ws0).cells r (icc + 1))
      then some (str "pending") else (mainWs2 icc ws0).cells r c := by
  unfold mainWs3
  rw [normFold_cells]
  have hem : r ∈ (mainBatches icc ws0).map Prod.fst := by
    rw [mainBatches_fst, List.mem_range'_1]
    omega
  exact if_congr (by simp [hem]) rfl rfl

theorem mainWs3_noRunning (icc : Nat) (ws0 : Ws) (r : Nat)
    (h2 : 2 ≤ r) (hM : r ≤ ws0.maxRow) :
    ¬ runningAt (mainWs3 icc ws0) (icc + 1) r := by
  intro hrun
  unfold runningAt at hrun
  rw [mainWs3_cells_data icc ws0 r (icc + 1) h2 hM] at hrun
  by_cases hcond : normCond ((mainWs2 icc ws0).cells r (icc + 1))
  · rw [if_pos ⟨rfl, hcond⟩] at hrun
    exact (by decide : statusLower (some (str "pending")) ≠ str "running") hrun
  · rw [if_neg (fun hh => hcond hh.2)] at hrun
    rw [mainWs2_cells_data icc ws0 r (icc + 1) h2 hM] at hrun
    by_cases hr0 : statusLower (ws0.cells r (icc + 1)) = str "running"
    · rw [if_pos ⟨rfl, hr0⟩] at hrun
      exact (by decide : statusLower (some (str "pending")) ≠ str "running") hrun
    · rw [if_neg (fun hh => hr0 hh.2)] at hrun
      exact hr0 hrun

theorem mainPending_bounds (icc : Nat) (ws0 : Ws) :
    ∀ p ∈ mainPending icc ws0, 2 ≤ p.1 ∧ p.1 ≤ ws0.maxRow := by
  intro p hp
  unfold mainPending pendingOf at hp
  have hb : p ∈ mainBatches icc ws0 := List.mem_of_mem_filter hp
  have hfst : p.1 ∈ (mainBatches icc ws0).map Prod.fst :=
    List.mem_map_of_mem Prod.fst hb
  rw [mainBatches_fst, List.mem_range'_1] at hfst
  omega

theorem mainPending_nodup (icc : Nat) (ws0 : Ws) :
    ((mainPending icc ws0).map Prod.fst).Nodup := by
  have h1 : List.Sublist (mainPending icc ws0) (mainBatches icc ws0) := by
    unfold mainPending pendingOf
    exact List.filter_sublist _
  have h2 : List.Sublist ((mainPending icc ws0).map Prod.fst)
      ((mainBatches icc ws0).map Prod.fst) :=
    h1.map Prod.fst
  rw [mainBatches_fst] at h2
  exact (List.nodup_range' _ _).sublist h2

theorem mainPending_status (icc : Nat) (ws0 : Ws) :
    ∀ p ∈ mainPending icc ws0,
      statusLower ((mainWs3 icc ws0).cells p.1 (icc + 1)) = str "pending" := by
  intro p hp
  unfold mainPending pendingOf at hp
  have := List.of_mem_filter hp
  simpa using this

/-! ## Scheduler-step behavior and the scheduling invariant -/

theorem runningAt_of_cell {w : Ws} {sc r : Nat} {v : Option Str}
    (h : w.cells r sc = v) :
    runningAt w sc r ↔ statusLower v = str "running" := by
  unfold runningAt
  rw [h]

theorem rowOf_eq {P : Params} {i : Nat} {p : Nat × List (Option Str)}
    (h : P.pending.get? i = some p) : rowOf P i = p.1 := by
  unfold rowOf
  rw [h]
  rfl

theorem rowOf_inj (P : Params) (M : Nat) (hP : ParamsWf P M) (i j : Nat)
    (hi : i < P.pending.length) (hj : j < P.pending.length)
    (h : rowOf P i = rowOf P j) : i = j := by
  have key : ∀ k (hk : k < P.pending.length),
      rowOf P k = (P.pending.map Prod.fst).get ⟨k, by simpa using hk⟩ := by
    intro k hk
    unfold rowOf
    rw [List.get?_eq_get hk]
    simp [List.get_map]
  rw [key i hi, key j hj] at h
  have := (List.Nodup.get_inj_iff hP.1).mp h
  simpa using congrArg Fin.val this

theorem mem_eraseIdx_nodup (l : List Nat) (j a : Nat)
    (hj : l.get? j = some a) (hnd : l.Nodup) (b : Nat) :
    b ∈ l.eraseIdx j ↔ (b ∈ l ∧ b ≠ a) := by
  induction l generalizing j with
  | nil => simp at hj
  | cons c t ih =>
    cases j with
    | zero =>
      simp only [List.get?] at hj
      injection hj with hj
      subst hj
      have hcn : c ∉ t := (List.nodup_cons.mp hnd).1
      simp only [List.eraseIdx, List.mem_cons]
      constructor
      · intro hb
        exact ⟨Or.inr hb, fun he => hcn (he ▸ hb)⟩
      · rintro ⟨hb | hb, hne⟩
        · exact absurd hb hne
        · exact hb
    | succ j =>
      simp only [List.get?] at hj
      have ha : a ∈ t := List.get?_mem hj
      have hcn := List.nodup_cons.mp hnd
      simp only [List.eraseIdx, List.mem_cons]
      rw [ih j hj hcn.2]
      constructor
      · rintro (rfl | ⟨hb, hne⟩)
        · exact ⟨Or.inl rfl, fun he => hcn.1 (he ▸ ha)⟩
        · exact ⟨Or.inr hb, hne⟩
      · rintro ⟨rfl | hb, hne⟩
        · exact Or.inl rfl
        · exact Or.inr ⟨hb, hne⟩

theorem submitNext_of_none {P : Params} {s : SchedState}
    (h : P.pending.get? s.nextToSubmit = none) : submitNext P s = s := by
  unfold submitNext
  rw [h]

theorem submitNext_of_some {P : Params} {s : SchedState} {p : Nat × List (Option Str)}
    (h : P.pending.get? s.nextToSubmit = some p) :
    submitNext P s =
      { ws := setCell s.ws p.1 P.statusCol (some (str "running")),
        disk := setCell s.ws p.1 P.statusCol (some (str "running")),
        inflight := s.inflight ++ [s.nextToSubmit],
        nextToSubmit := s.nextToSubmit + 1 } := by
  unfold submitNext
  rw [h]

theorem completeStep_of_noFut {P : Params} {s : SchedState} {j : Nat}
    (h : s.inflight.get? j = none) : completeStep P s j = s := by
  unfold completeStep
  rw [h]

theorem completeStep_of_fault {P : Params} {s : SchedState} {j idx : Nat}
    {p : Nat × List (Option Str)}
    (h1 : s.inflight.get? j = some idx) (h2 : P.pending.get? idx = some p)
    (h3 : P.oracle idx = none) :
    completeStep P s j =
      { ws := setCell s.ws p.1 P.statusCol (some (str "error")),
        disk := setCell s.ws p.1 P.statusCol (some (str "error")),
        inflight := s.inflight.eraseIdx j,
        nextToSubmit := s.nextToSubmit } := by
  simp only [completeStep, h1, h2, h3]

theorem completeStep_of_env {P : Params} {s : SchedState} {j idx : Nat}
    {p : Nat × List (Option Str)} {env : ExecEnv}
    (h1 : s.inflight.get? j = some idx) (h2 : P.pending.get? idx = some p)
    (h3 : P.oracle idx = some env) :
    completeStep P s j =
      submitNext P
        { ws := commitResult P.statusCol s.ws (process_batch p.1 p.2 (idx % P.nCores) env),
          disk := commitResult P.statusCol s.ws (process_batch p.1 p.2 (idx % P.nCores) env),
          inflight := s.inflight.eraseIdx j,
          nextToSubmit := s.nextToSubmit } := by
  simp only [completeStep, h1, h2, h3]

theorem submitNext_inv {P : Params} {M : Nat} (hP : ParamsWf P M) {s : SchedState}
    (h : Inv P M s) :
    Inv P M (submitNext P s) ∧
      (submitNext P s).inflight.length ≤ s.inflight.length + 1 := by
  obtain ⟨hmax, hnext, hnod, hbnd, hiff⟩ := h
  cases hget : P.pending.get? s.nextToSubmit with
  | none =>
    rw [submitNext_of_none hget]
    exact ⟨⟨hmax, hnext, hnod, hbnd, hiff⟩, by omega⟩
  | some p =>
    rw [submitNext_of_some hget]
    have hlt : s.nextToSubmit < P.pending.length := (List.get?_eq_some.mp hget).1
    have hrow : rowOf P s.nextToSubmit = p.1 := rowOf_eq hget
    refine ⟨⟨hmax, ?_, ?_, ?_, ?_⟩, ?_⟩
    · show s.nextToSubmit + 1 ≤ P.pending.length
      omega
    · show (s.inflight ++ [s.nextToSubmit]).Nodup
      rw [List.nodup_append]
      refine ⟨hnod, List.nodup_singleton _, ?_⟩
      intro x hx hxs
      rw [List.mem_singleton] at hxs
      have := hbnd x hx
      omega
    · show ∀ i ∈ s.inflight ++ [s.nextToSubmit], i < s.nextToSubmit + 1
      intro i hi
      rw [List.mem_append, List.mem_singleton] at hi
      rcases hi with hi | hi
      · have := hbnd i hi
        omega
      · omega
    · show ∀ r, 2 ≤ r → r ≤ M →
        (runningAt (setCell s.ws p.1 P.statusCol (some (str "running"))) P.statusCol r ↔
          ∃ i ∈ s.inflight ++ [s.nextToSubmit], rowOf P i = r)
      intro r h2 hM2
      by_cases hr : r = p.1
      · have hcell : (setCell s.ws p.1 P.statusCol (some (str "running"))).cells r P.statusCol =
            some (str "running") := by
          rw [setCell_cells, if_pos ⟨hr, rfl⟩]
        rw [runningAt_of_cell hcell]
        constructor
        · intro _
          exact ⟨s.nextToSubmit, by simp, by rw [hrow, hr]⟩
        · intro _
          decide
      · have hcell : (setCell s.ws p.1 P.statusCol (some (str "running"))).cells r P.statusCol =
            s.ws.cells r P.statusCol := by
          rw [setCell_cells, if_neg (fun hh => hr hh.1)]
        rw [runningAt_of_cell hcell, ← runningAt_of_cell rfl, hiff r h2 hM2]
        constructor
        · rintro ⟨i, hi, hieq⟩
          exact ⟨i, List.mem_append_left _ hi, hieq⟩
        · rintro ⟨i, hi, hieq⟩
          rw [List.mem_append, List.mem_singleton] at hi
          rcases hi with hi | rfl
          · exact ⟨i, hi, hieq⟩
          · exact absurd (by rw [← hieq, hrow]) hr
    · show (s.inflight ++ [s.nextToSubmit]).length ≤ s.inflight.length + 1
      simp

theorem completeStep_inv {P : Params} {M : Nat} (hP : ParamsWf P M) {s : SchedState}
    (h : Inv P M s) (hlen : s.inflight.length ≤ P.nCores) (j : Nat) :
    Inv P M (completeStep P s j) ∧
      (completeStep P s j).inflight.length ≤ P.nCores := by
  obtain ⟨hmax, hnext, hnod, hbnd, hiff⟩ := h
  cases hj : s.inflight.get? j with
  | none =>
    rw [completeStep_of_noFut hj]
    exact ⟨⟨hmax, hnext, hnod, hbnd, hiff⟩, hlen⟩
  | some idx =>
    have hjlen : j < s.inflight.length := (List.get?_eq_some.mp hj).1
    have hidxmem : idx ∈ s.inflight := List.get?_mem hj
    have hidxlt : idx < P.pending.length := by
      have := hbnd idx hidxmem
      omega
    obtain ⟨p, hp⟩ : ∃ p, P.pending.get? idx = some p :=
      ⟨_, List.get?_eq_get hidxlt⟩
    have hrow : rowOf P idx = p.1 := rowOf_eq hp
    have herlen : (s.inflight.eraseIdx j).length = s.inflight.length - 1 := by
      rw [List.length_eraseIdx]
      simp [hjlen]
    have hernod : (s.inflight.eraseIdx j).Nodup :=
      hnod.sublist (List.eraseIdx_sublist _ _)
    have hermem : ∀ b, b ∈ s.inflight.eraseIdx j ↔ (b ∈ s.inflight ∧ b ≠ idx) :=
      fun b => mem_eraseIdx_nodup _ _ _ hj hnod b
    cases ho : P.oracle idx with
    | none =>
      rw [completeStep_of_fault hj hp ho]
      refine ⟨⟨hmax, hnext, hernod, ?_, ?_⟩, ?_⟩
      · intro i hi
        exact hbnd i ((hermem i).mp hi).1
      · show ∀ r, 2 ≤ r → r ≤ M →
          (runningAt (setCell s.ws p.1 P.statusCol (some (str "error"))) P.statusCol r ↔
            ∃ i ∈ s.inflight.eraseIdx j, rowOf P i = r)
        intro r h2 hM2
        by_cases hr : r = p.1
        · have hcell : (setCell s.ws p.1 P.statusCol (some (str "error"))).cells r P.statusCol =
              some (str "error") := by
            rw [setCell_cells, if_pos ⟨hr, rfl⟩]
          rw [runningAt_of_cell hcell]
          constructor
          · intro habs
            exact absurd habs (by decide)
          · rintro ⟨i, hi, hieq⟩
            obtain ⟨him, hine⟩ := (hermem i).mp hi
            have hilt : i < P.pending.length := by
              have := hbnd i him
              omega
            exact (hine (rowOf_inj P M hP i idx hilt hidxlt (by rw [hieq, hr, ← hrow]))).elim
        · have hcell : (setCell s.ws p.1 P.statusCol (some (str "error"))).cells r P.statusCol =
              s.ws.cells r P.statusCol := by
            rw [setCell_cells, if_neg (fun hh => hr hh.1)]
          rw [runningAt_of_cell hcell, ← runningAt_of_cell rfl, hiff r h2 hM2]
          constructor
          · rintro ⟨i, hi, hieq⟩
            refine ⟨i, (hermem i).mpr ⟨hi, ?_⟩, hieq⟩
            rintro rfl
            exact hr (by rw [← hieq, hrow])
          · rintro ⟨i, hi, hieq⟩
            exact ⟨i, ((hermem i).mp hi).1, hieq⟩
      · show (s.inflight.eraseIdx j).length ≤ P.nCores
        rw [herlen]
        omega
    | some env =>
      rw [completeStep_of_env hj hp ho]
      have hInv' : Inv P M
          { ws := commitResult P.statusCol s.ws (process_batch p.1 p.2 (idx % P.nCores) env),
            disk := commitResult P.statusCol s.ws (process_batch p.1 p.2 (idx % P.nCores) env),
            inflight := s.inflight.eraseIdx j,
            nextToSubmit := s.nextToSubmit } := by
        refine ⟨?_, hnext, hernod, ?_, ?_⟩
        · show (commitResult _ _ _).maxRow = M
          rw [commit_maxRow]
          exact hmax
        · intro i hi
          exact hbnd i ((hermem i).mp hi).1
        · show ∀ r, 2 ≤ r → r ≤ M →
            (runningAt (commitResult P.statusCol s.ws
                (process_batch p.1 p.2 (idx % P.nCores) env)) P.statusCol r ↔
              ∃ i ∈ s.inflight.eraseIdx j, rowOf P i = r)
          intro r h2 hM2
          by_cases hr : r = p.1
          · have hcell : (commitResult P.statusCol s.ws
                (process_batch p.1 p.2 (idx % P.nCores) env)).cells r P.statusCol =
                some (str "completed") := by
              rw [hr]
              exact commit_status P.statusCol s.ws _
            rw [runningAt_of_cell hcell]
            constructor
            · intro habs
              exact absurd habs (by decide)
            · rintro ⟨i, hi, hieq⟩
              obtain ⟨him, hine⟩ := (hermem i).mp hi
              have hilt : i < P.pending.length := by
                have := hbnd i him
                omega
              exact (hine (rowOf_inj P M hP i idx hilt hidxlt (by rw [hieq, hr, ← hrow]))).elim
          · have hcell : (commitResult P.statusCol s.ws
                (process_batch p.1 p.2 (idx % P.nCores) env)).cells r P.statusCol =
                s.ws.cells r P.statusCol :=
              commit_frame _ _ _ _ _ hr
            rw [runningAt_of_cell hcell, ← runningAt_of_cell rfl, hiff r h2 hM2]
            constructor
            · rintro ⟨i, hi, hieq⟩
              refine ⟨i, (hermem i).mpr ⟨hi, ?_⟩, hieq⟩
              rintro rfl
              exact hr (by rw [← hieq, hrow])
            · rintro ⟨i, hi, hieq⟩
              exact ⟨i, ((hermem i).mp hi).1, hieq⟩
      obtain ⟨hI, hL⟩ := submitNext_inv hP hInv'
      refine ⟨hI, le_trans hL ?_⟩
      show (s.inflight.eraseIdx j).length + 1 ≤ P.nCores
      rw [herlen]
      omega

theorem initSubmit_inv {P : Params} {M : Nat} (hP : ParamsWf P M) :
    ∀ (k : Nat) {s : SchedState}, Inv P M s →
      Inv P M (initSubmit P k s) ∧
        (initSubmit P k s).inflight.length ≤ s.inflight.length + k := by
  intro k
  induction k with
  | zero =>
    intro s h
    refine ⟨h, ?_⟩
    show s.inflight.length ≤ s.inflight.length + 0
    omega
  | succ k ih =>
    intro s h
    have e : initSubmit P (k + 1) s = initSubmit P k (submitNext P s) := rfl
    obtain ⟨h1, h2⟩ := submitNext_inv hP h
    obtain ⟨h3, h4⟩ := ih h1
    rw [e]
    exact ⟨h3, by omega⟩

theorem runSched_inv {P : Params} {M : Nat} (hP : ParamsWf P M) :
    ∀ (sched : List Nat) {s : SchedState}, Inv P M s →
      s.inflight.length ≤ P.nCores →
      Inv P M (runSched P s sched) ∧
        (runSched P s sched).inflight.length ≤ P.nCores := by
  intro sched
  induction sched with
  | nil =>
    intro s h hl
    exact ⟨h, hl⟩
  | cons j rest ih =>
    intro s h hl
    obtain ⟨h1, h2⟩ := completeStep_inv hP h hl j
    have e : runSched P s (j :: rest) = runSched P (completeStep P s j) rest := rfl
    rw [e]
    exact ih h1 h2

theorem mainParams_wf (icc nCores : Nat) (oracle : Nat → Option ExecEnv) (ws0 : Ws) :
    ParamsWf (mainParams icc nCores oracle ws0) ws0.maxRow :=
  ⟨mainPending_nodup icc ws0, mainPending_bounds icc ws0⟩

theorem mainInit_inv (icc nCores : Nat) (oracle : Nat → Option ExecEnv) (ws0 : Ws) :
    Inv (mainParams icc nCores oracle ws0) ws0.maxRow (mainInitState icc ws0) := by
  refine ⟨mainWs3_maxRow icc ws0, Nat.zero_le _, List.nodup_nil, ?_, ?_⟩
  · intro i hi
    exact absurd hi (List.not_mem_nil i)
  · intro r h2 hM
    constructor
    · intro hrun
      exact absurd hrun (mainWs3_noRunning icc ws0 r h2 hM)
    · rintro ⟨i, hi, -⟩
      exact absurd hi (List.not_mem_nil i)

theorem inv_countRunning {P : Params} {M : Nat} {s : SchedState}
    (h : Inv P M s) (hl : s.inflight.length ≤ P.nCores) :
    countRunning s.ws P.statusCol ≤ P.nCores := by
  obtain ⟨hmax, -, -, hbnd, hiff⟩ := h
  unfold countRunning
  have hsub : ((wsRows s.ws).filter (fun r => decide (runningAt s.ws P.statusCol r))) ⊆
      s.inflight.map (rowOf P) := by
    intro r hr
    rw [List.mem_filter, decide_eq_true_eq] at hr
    obtain ⟨hmem, hdec⟩ := hr
    unfold wsRows at hmem
    rw [hmax, List.mem_range'_1] at hmem
    obtain ⟨i, hi, hieq⟩ := (hiff r (by omega) (by omega)).mp hdec
    rw [List.mem_map]
    exact ⟨i, hi, hieq⟩
  have hnd : ((wsRows s.ws).filter (fun r => decide (runningAt s.ws P.statusCol r))).Nodup := by
    unfold wsRows
    exact (List.nodup_range' _ _).sublist (List.filter_sublist _)
  calc ((wsRows s.ws).filter (fun r => decide (runningAt s.ws P.statusCol r))).length
      ≤ (s.inflight.map (rowOf P)).length := (hnd.subperm hsub).length_le
    _ = s.inflight.length := List.length_map _ _
    _ ≤ P.nCores := hl

theorem inv_rows_nodup {P : Params} {M : Nat} (hP : ParamsWf P M) {s : SchedState}
    (h : Inv P M s) : (s.inflight.map (rowOf P)).Nodup := by
  obtain ⟨-, hnext, hnod, hbnd, -⟩ := h
  refine List.Nodup.map_on ?_ hnod
  intro i hi j hj heq
  have hilt : i < P.pending.length := by
    have := hbnd i hi
    omega
  have hjlt : j < P.pending.length := by
    have := hbnd j hj
    omega
  exact rowOf_inj P M hP i j hilt hjlt heq

/-! ## Further helper lemmas -/

theorem mainBatches_row_bounds (icc : Nat) (ws0 : Ws) :
    ∀ p ∈ mainBatches icc ws0, 2 ≤ p.1 ∧ p.1 ≤ ws0.maxRow := by
  intro p hp
  have hfst : p.1 ∈ (mainBatches icc ws0).map Prod.fst :=
    List.mem_map_of_mem Prod.fst hp
  rw [mainBatches_fst, List.mem_range'_1] at hfst
  omega

theorem buildBatches_inputs_len (w : Ws) (icc : Nat) :
    ∀ p ∈ buildBatches w icc, p.2.length = icc := by
  intro p hp
  unfold buildBatches at hp
  rw [List.mem_map] at hp
  obtain ⟨r, -, he⟩ := hp
  rw [← he]
  simp

theorem truthy_of_statusLower_completed (v : Option Str)
    (h : statusLower v = str "completed") : truthy v = true := by
  cases v with
  | none => exact absurd h (by decide)
  | some s =>
    cases s with
    | nil => exact absurd h (by decide)
    | cons c cs => rfl

theorem mainWs3_status_of_completed (icc : Nat) (ws0 : Ws) (r : Nat)
    (h2 : 2 ≤ r) (hM : r ≤ ws0.maxRow)
    (hc : statusLower (ws0.cells r (icc + 1)) = str "completed") :
    (mainWs3 icc ws0).cells r (icc + 1) = ws0.cells r (icc + 1) := by
  rw [mainWs3_cells_data icc ws0 r (icc + 1) h2 hM,
      mainWs2_cells_data icc ws0 r (icc + 1) h2 hM]
  have hnr : ¬ statusLower (ws0.cells r (icc + 1)) = str "running" := by
    rw [hc]
    decide
  have htr : truthy (ws0.cells r (icc + 1)) = true :=
    truthy_of_statusLower_completed _ hc
  have hnc : ¬ normCond (ws0.cells r (icc + 1)) := by
    intro hh
    apply hh.2.2
    unfold normVal
    rw [if_pos htr]
    exact hc
  rw [if_neg (show ¬ (icc + 1 = icc + 1 ∧
        statusLower (ws0.cells r (icc + 1)) = str "running") from fun hh => hnr hh.2),
      if_neg (show ¬ (icc + 1 = icc + 1 ∧
        normCond (ws0.cells r (icc + 1))) from fun hh => hnc hh.2)]

theorem mainWs3_cells_outside (icc : Nat) (ws0 : Ws) (r c : Nat)
    (hr : ¬ (2 ≤ r ∧ r ≤ ws0.maxRow)) :
    (mainWs3 icc ws0).cells r c = (mainWs1 icc ws0).cells r c := by
  have hmem : r ∉ List.range' 2 (ws0.maxRow - 1) := by
    rw [List.mem_range'_1]
    omega
  unfold mainWs3
  rw [normFold_cells, mainBatches_fst, if_neg (fun hh => hmem hh.1)]
  show (mainWs2 icc ws0).cells r c = _
  unfold mainWs2 reset_running_on_resume
  have hrows : wsRows (mainWs1 icc ws0) = List.range' 2 (ws0.maxRow - 1) := by
    unfold wsRows
    rw [mainWs1_maxRow]
  rw [resetFold_cells, hrows, if_neg (fun hh => hmem hh.1)]

theorem runSched_of_empty (P : Params) (sched : List Nat) :
    ∀ (s : SchedState), s.inflight = [] → runSched P s sched = s := by
  induction sched with
  | nil =>
    intro s h
    rfl
  | cons j rest ih =>
    intro s h
    have e : runSched P s (j :: rest) = runSched P (completeStep P s j) rest := rfl
    rw [e, completeStep_of_noFut (by rw [h]; cases j <;> rfl)]
    exact ih s h

/-! ## The claims -/

/-- Claim C1: the spec requires that when a submitted execution's
`fut.result()` raises, the scheduler marks the item `error`, flushes, and
keeps the batch going — every remaining pending item still gets submitted
and the freed slot is reused.  The code marks `error` and flushes, but the
`continue` in the exception handler skips the resubmission block, so the
slot is never refilled: with one worker and two pending rows, a fault on
the first future ends the run (`inflight = []`) with `next_to_submit`
still 1, and row 3 is left `pending`, never submitted. -/
theorem claim1_fault_leaks_slot :
    (mainPending 1 ws0A).length = 2 ∧
    (mainRun 1 1 oracleFault ws0A [0]).ws.cells 2 2 = some (str "error") ∧
    (mainRun 1 1 oracleFault ws0A [0]).disk.cells 2 2 = some (str "error") ∧
    (mainRun 1 1 oracleFault ws0A [0]).inflight = [] ∧
    (mainRun 1 1 oracleFault ws0A [0]).nextToSubmit = 1 ∧
    (mainRun 1 1 oracleFault ws0A [0]).ws.cells 3 2 = some (str "pending") := by
  decide

/-- Claim C2: the spec requires every initially-pending item to end in
`completed` or `error` after a run that completes.  Counter-run: one
worker, two rows with unset statuses (both normalized to `pending`); the
first future faults, the loop drains (`inflight = []`, a completed run of
the dispatcher process), yet row 3 ends still `pending`. -/
theorem claim2_item_left_pending :
    (mainRun 1 1 oracleFault ws0B [0]).inflight = [] ∧
    statusLower ((mainRun 1 1 oracleFault ws0B [0]).ws.cells 2 2) = str "error" ∧
    statusLower ((mainRun 1 1 oracleFault ws0B [0]).ws.cells 3 2) = str "pending" := by
  decide

/-- Claim C4: on startup, before any submission, every stored `running`
status is rewritten to `pending`, every status outside
pending/running/completed (empty cells included, `error` included via
`normCond`) is normalized to `pending`, and the result is on disk
(`disk = mainWs3`) in the scheduler's pre-submission state, whose
in-flight set is empty. -/
theorem claim4_reconciliation (ws0 : Ws) (icc r : Nat)
    (h2 : 2 ≤ r) (hM : r ≤ ws0.maxRow) :
    (statusLower (ws0.cells r (icc + 1)) = str "running" →
      (mainWs3 icc ws0).cells r (icc + 1) = some (str "pending")) ∧
    (normCond (ws0.cells r (icc + 1)) →
      (mainWs3 icc ws0).cells r (icc + 1) = some (str "pending")) ∧
    (mainInitState icc ws0).disk = mainWs3 icc ws0 ∧
    (mainInitState icc ws0).inflight = [] ∧
    (mainInitState icc ws0).nextToSubmit = 0 := by
  refine ⟨?_, ?_, rfl, rfl, rfl⟩
  · intro hrun
    rw [mainWs3_cells_data icc ws0 r (icc + 1) h2 hM,
        mainWs2_cells_data icc ws0 r (icc + 1) h2 hM,
        if_pos (show icc + 1 = icc + 1 ∧
          statusLower (ws0.cells r (icc + 1)) = str "running" from ⟨rfl, hrun⟩),
        if_neg (show ¬ (icc + 1 = icc + 1 ∧ normCond (some (str "pending"))) from
          fun hh => (by decide : ¬ normCond (some (str "pending"))) hh.2)]
  · intro hcond0
    rw [mainWs3_cells_data icc ws0 r (icc + 1) h2 hM,
        mainWs2_cells_data icc ws0 r (icc + 1) h2 hM]
    by_cases hrun : statusLower (ws0.cells r (icc + 1)) = str "running"
    · rw [if_pos (show icc + 1 = icc + 1 ∧
            statusLower (ws0.cells r (icc + 1)) = str "running" from ⟨rfl, hrun⟩),
          if_neg (show ¬ (icc + 1 = icc + 1 ∧ normCond (some (str "pending"))) from
            fun hh => (by decide : ¬ normCond (some (str "pending"))) hh.2)]
    · rw [if_neg (show ¬ (icc + 1 = icc + 1 ∧
            statusLower (ws0.cells r (icc + 1)) = str "running") from fun hh => hrun hh.2),
          if_pos (show icc + 1 = icc + 1 ∧
            normCond (ws0.cells r (icc + 1)) from ⟨rfl, hcond0⟩)]

/-- Witness for C4 on a concrete crash-resume store: row 2 was `running`
and becomes `pending`; row 3 was `error` and is normalized to `pending`. -/
theorem claim4_reconciliation_witness :
    (2 ≤ 2 ∧ 2 ≤ ws0D.maxRow ∧ 2 ≤ 3 ∧ 3 ≤ ws0D.maxRow) ∧
    (mainWs3 1 ws0D).cells 2 2 = some (str "pending") ∧
    (mainWs3 1 ws0D).cells 3 2 = some (str "pending") :=
  ⟨⟨by decide, by decide, by decide, by decide⟩,
   (claim4_reconciliation ws0D 1 2 (by decide) (by decide)).1 (by decide),
   (claim4_reconciliation ws0D 1 3 (by decide) (by decide)).2.1 (by decide)⟩

/-- Claim C6, counterexample: the claim says the loader fails when the
first line is not a positive integer, but `int("0")` succeeds and the code
never checks positivity: a config whose first line is `"0"` loads fine. -/
theorem claim6_counterexample :
    load_config [str "0", str "prog.exe"] = Except.ok (0, str "prog.exe") := by
  rfl

/-- Claim C6 (amended): the loader fails (process exit, modelled as
`Except.error`) exactly when fewer than two non-empty whitespace-trimmed
lines are present or the first line does not parse as an integer; any
parseable integer — zero and negatives included — is accepted and returned
together with the second line. -/
theorem claim6_amended (fileLines : List Str) :
    load_config fileLines = loadConfigSpec fileLines := by
  unfold load_config loadConfigSpec
  cases h : cleanLines fileLines with
  | nil => simp [h]
  | cons l0 t =>
    cases t with
    | nil => simp [h]
    | cons l1 rest =>
      cases hp : pyInt l0 with
      | none => simp [h, hp]
      | some n => simp [h, hp]

/-- Claim C7, counterexample: the write loop over the tab fields of the
first output line is unbounded, so a 51-field line writes its last field
into the 51st output column — one past the bounded 50-column region the
claim says is never exceeded. -/
theorem claim7_counterexample :
    (outputFieldsOf b51.output).length = 51 ∧
    wsEmpty.cells 2 57 = none ∧
    (commitResult 2 wsEmpty b51).cells 2 57 = some (str "x") := by
  decide

/-- Claim C7 (amended): on commit, output column `i` (0-based, starting
right after the five status columns) receives field `i` of the tab-split
first stdout line for every `i` below the field count — without
truncation, even past 50 — while region columns at or beyond the field
count are cleared only up to the 50-column bound, and columns past both
the field count and the bound keep their old values. -/
theorem claim7_amended (sc : Nat) (w : Ws) (b : BatchResult) (i : Nat) :
    (commitResult sc w b).cells b.row (sc + 5 + i) =
      if i < (outputFieldsOf b.output).length
      then some ((outputFieldsOf b.output).getD i [])
      else if i < 50 then none else w.cells b.row (sc + 5 + i) :=
  commit_out sc w b i

/-- Claim C8: every output-field column inside the bounded 50-column
region at or beyond the new result's field count is cleared on commit,
whatever the previous contents of the sheet were. -/
theorem claim8_stale_fields_cleared (sc : Nat) (w : Ws) (b : BatchResult) (i : Nat)
    (hlen : (outputFieldsOf b.output).length ≤ i) (h50 : i < 50) :
    (commitResult sc w b).cells b.row (sc + 5 + i) = none := by
  rw [commit_out, if_neg (by omega), if_pos h50]

/-- Witness for C8: committing a 2-field result over a sheet whose row
already carried 5 output fields clears field column 3 (and the sheet
really did carry a stale value there). -/
theorem claim8_stale_fields_cleared_witness :
    ((outputFieldsOf bAB.output).length ≤ 2 ∧ 2 < 50) ∧
    wsStale.cells 2 9 = some (str "old") ∧
    (commitResult 2 wsStale bAB).cells 2 (2 + 5 + 2) = none :=
  ⟨⟨by decide, by decide⟩, by decide,
   claim8_stale_fields_cleared 2 wsStale bAB 2 (by decide) (by decide)⟩

/-- Claim C10: the artifact file name comes from input field 11 (the 12th
field) when present and truthy, and falls back to `UNKNOWN_<row>.txt` when
the item has 11 or fewer input fields or that field is empty; since
`buildBatches` gives every item exactly `input_column_count` fields, any
configuration with `input_column_count ≤ 11` names every artifact with the
placeholder. -/
theorem claim10_artifact_name (row : Nat) (inputs : List (Option Str)) :
    (inputs.length ≤ 11 →
      out_fname row inputs = str "UNKNOWN_" ++ natStr row ++ str ".txt") ∧
    (∀ v, inputs.get? 11 = some v → truthy v = false →
      out_fname row inputs = str "UNKNOWN_" ++ natStr row ++ str ".txt") ∧
    (∀ v, inputs.get? 11 = some v → truthy v = true →
      out_fname row inputs = pyStrOpt v ++ str ".txt") ∧
    (∀ (w : Ws) (icc : Nat), icc ≤ 11 → ∀ p ∈ buildBatches w icc,
      out_fname p.1 p.2 = str "UNKNOWN_" ++ natStr p.1 ++ str ".txt") := by
  have base : ∀ (row' : Nat) (inputs' : List (Option Str)), inputs'.length ≤ 11 →
      out_fname row' inputs' = str "UNKNOWN_" ++ natStr row' ++ str ".txt" := by
    intro row' inputs' hlen
    unfold out_fname case_id
    rw [List.get?_eq_none.mpr hlen, List.append_assoc]
  refine ⟨base row inputs, ?_, ?_, ?_⟩
  · intro v hv htr
    rw [List.get?_eq_getElem?] at hv
    simp [out_fname, case_id, hv, htr]
  · intro v hv htr
    rw [List.get?_eq_getElem?] at hv
    simp [out_fname, case_id, hv, htr]
  · intro w icc hicc p hp
    exact base p.1 p.2 (by rw [buildBatches_inputs_len w icc p hp]; exact hicc)

/-- Witness for C10: a one-field item gets the placeholder artifact name,
and an item with a truthy 12th field gets that field as its name. -/
theorem claim10_artifact_name_witness :
    ([some (str "a")].length ≤ 11 ∧
      out_fname 7 [some (str "a")] = str "UNKNOWN_" ++ natStr 7 ++ str ".txt") ∧
    (List.replicate 12 (some (str "case9"))).get? 11 = some (some (str "case9")) ∧
    truthy (some (str "case9")) = true ∧
    out_fname 3 (List.replicate 12 (some (str "case9"))) =
      pyStrOpt (some (str "case9")) ++ str ".txt" :=
  ⟨⟨by decide, (claim10_artifact_name 7 [some (str "a")]).1 (by decide)⟩,
   by decide, by decide,
   (claim10_artifact_name 3 (List.replicate 12 (some (str "case9")))).2.2.1
     (some (str "case9")) (by decide) (by decide)⟩

/-- Claim C3: at every point of a run — any number `k` of initial
submissions up to `min(N, pending)` followed by any completion schedule —
at most `N` data rows show status `running`, the in-flight set never
exceeds `N`, and no item is in flight on two slots at once (the rows of
the in-flight futures are pairwise distinct). -/
theorem claim3_running_bound (ws0 : Ws) (icc nCores : Nat)
    (oracle : Nat → Option ExecEnv) (k : Nat) (schedule : List Nat)
    (hk : k ≤ min nCores (mainPending icc ws0).length) :
    countRunning (mainRunK icc nCores oracle ws0 k schedule).ws (icc + 1) ≤ nCores ∧
    (mainRunK icc nCores oracle ws0 k schedule).inflight.length ≤ nCores ∧
    ((mainRunK icc nCores oracle ws0 k schedule).inflight.map
      (rowOf (mainParams icc nCores oracle ws0))).Nodup := by
  have hP := mainParams_wf icc nCores oracle ws0
  have h0 := mainInit_inv icc nCores oracle ws0
  obtain ⟨h1, h2⟩ := initSubmit_inv hP k h0
  have h2' : (initSubmit (mainParams icc nCores oracle ws0) k
      (mainInitState icc ws0)).inflight.length ≤
      (mainParams icc nCores oracle ws0).nCores := by
    have hz : (mainInitState icc ws0).inflight.length = 0 := rfl
    have hmin : k ≤ nCores := le_trans hk (Nat.min_le_left _ _)
    show _ ≤ nCores
    omega
  obtain ⟨h3, h4⟩ := runSched_inv hP schedule h1 h2'
  exact ⟨inv_countRunning h3 h4, h4, inv_rows_nodup hP h3⟩

/-- Witness for C3: two pending rows, two cores, one initial submission
already made and one fault processed. -/
theorem claim3_running_bound_witness :
    1 ≤ min 2 (mainPending 1 ws0A).length ∧
    (countRunning (mainRunK 1 2 oracleFault ws0A 1 [0]).ws (1 + 1) ≤ 2 ∧
     (mainRunK 1 2 oracleFault ws0A 1 [0]).inflight.length ≤ 2 ∧
     ((mainRunK 1 2 oracleFault ws0A 1 [0]).inflight.map
       (rowOf (mainParams 1 2 oracleFault ws0A))).Nodup) :=
  ⟨by decide, claim3_running_bound ws0A 1 2 oracleFault 1 [0] (by decide)⟩

/-! ### String lemmas for the error-annotation claim -/

theorem takeWhile_append_of_all (p : Char → Bool) :
    ∀ (a b : Str), a.all p = true →
      List.takeWhile p (a ++ b) = a ++ List.takeWhile p b := by
  intro a
  induction a with
  | nil =>
    intro b h
    rfl
  | cons c cs ih =>
    intro b h
    rw [List.all_cons, Bool.and_eq_true] at h
    rw [List.cons_append, List.takeWhile_cons, if_pos h.1, ih b h.2, List.cons_append]

theorem stripRight_append (a b : Str) :
    stripRight (a ++ b) = a ++ stripRight b ∨ stripRight (a ++ b) = stripRight a := by
  unfold stripRight
  rw [List.reverse_append, List.dropWhile_append]
  by_cases h : (List.dropWhile isWs b.reverse).isEmpty
  · right
    rw [if_pos h]
  · left
    rw [if_neg h, List.reverse_append, List.reverse_reverse]

theorem pySplit_ne_nil (sep : Char) : ∀ (l : Str), pySplit sep l ≠ [] := by
  intro l
  induction l with
  | nil => exact fun h => List.noConfusion h
  | cons c cs ih =>
    unfold pySplit
    by_cases h : c = sep
    · rw [if_pos h]
      exact fun h => List.noConfusion h
    · rw [if_neg h]
      cases hsp : pySplit sep cs with
      | nil => exact absurd hsp ih
      | cons f rs => exact fun h => List.noConfusion h

theorem pySplit_headD (sep : Char) :
    ∀ (l : Str), (pySplit sep l).headD [] = l.takeWhile (fun c => c ≠ sep) := by
  intro l
  induction l with
  | nil => rfl
  | cons c cs ih =>
    unfold pySplit
    by_cases h : c = sep
    · rw [if_pos h, List.takeWhile_cons, if_neg (by simp [h])]
      rfl
    · rw [if_neg h]
      cases hsp : pySplit sep cs with
      | nil => exact absurd hsp (pySplit_ne_nil sep cs)
      | cons f rs =>
        rw [hsp] at ih
        rw [List.takeWhile_cons, if_pos (by simp [h])]
        show c :: f = c :: cs.takeWhile (fun c => decide (c ≠ sep))
        rw [← ih]
        rfl

theorem errHdr_prefix_firstLine (rest : Str) :
    str "[ERROR]" <+: firstLineOf (str "[ERROR] Exception: " ++ rest) := by
  have hout : str "[ERROR] Exception: " ++ rest =
      str "[ERROR] Exception:" ++ (' ' :: rest) := rfl
  rw [hout]
  unfold firstLineOf
  have hne : (str "[ERROR] Exception:" ++ (' ' :: rest)).isEmpty = false := rfl
  rw [if_neg (by rw [hne]; exact Bool.false_ne_true)]
  unfold pyStrip
  have hleft : stripLeft (str "[ERROR] Exception:" ++ (' ' :: rest)) =
      str "[ERROR] Exception:" ++ (' ' :: rest) := rfl
  rw [hleft]
  rcases stripRight_append (str "[ERROR] Exception:") (' ' :: rest) with h | h
  · rw [h, takeWhile_append_of_all _ _ _ (by decide)]
    exact (show str "[ERROR]" <+: str "[ERROR] Exception:" by decide).trans
      (List.prefix_append _ _)
  · rw [h]
    decide

theorem errHdr_prefix_field (rest : Str) :
    str "[ERROR]" <+:
      (outputFieldsOf (str "[ERROR] Exception: " ++ rest)).headD [] := by
  obtain ⟨r2, hr2⟩ := errHdr_prefix_firstLine rest
  unfold outputFieldsOf
  have hne : (firstLineOf (str "[ERROR] Exception: " ++ rest)).isEmpty = false := by
    rw [← hr2]
    rfl
  rw [if_neg (by rw [hne]; exact Bool.false_ne_true), pySplit_headD, ← hr2,
      takeWhile_append_of_all _ _ _ (by decide)]
  exact List.prefix_append _ _

/-- Claim C5: when the external program exits non-zero or fails to launch
(`subprocess.run` raising inside `run_exe_on_batch`), the executor returns
the error-annotated payload instead of raising, `process_batch` still
reports status `completed`, the first output line — and hence the first
committed output field — carries the `[ERROR]` annotation, committing the
result writes `completed` (never `error` or `running`) into the status
cell, and all other rows of the sheet are untouched. -/
theorem claim5_external_failure (msg tb se : Str) (env : ExecEnv)
    (row core sc : Nat) (inputs : List (Option Str)) (w : Ws)
    (hp : env.proc = ProcResult.exn msg tb se) (hw : env.writeErr = none) :
    run_exe_on_batch env.proc =
      (str "[ERROR] Exception: " ++ msg ++ str "\n" ++ tb ++ str "\n" ++ se, se) ∧
    (process_batch row inputs core env).status = str "completed" ∧
    str "[ERROR]" <+: firstLineOf (process_batch row inputs core env).output ∧
    str "[ERROR]" <+:
      (outputFieldsOf (process_batch row inputs core env).output).headD [] ∧
    (commitResult sc w (process_batch row inputs core env)).cells row sc =
      some (str "completed") ∧
    (∀ r c, r ≠ row →
      (commitResult sc w (process_batch row inputs core env)).cells r c =
        w.cells r c) := by
  have hbout : (process_batch row inputs core env).output =
      str "[ERROR] Exception: " ++ (msg ++ (str "\n" ++ (tb ++ (str "\n" ++ se)))) := by
    simp only [process_batch, hp, hw, run_exe_on_batch]
    simp [List.append_assoc]
  refine ⟨by rw [hp]; rfl, rfl, ?_, ?_, ?_, ?_⟩
  · rw [hbout]
    exact errHdr_prefix_firstLine _
  · rw [hbout]
    exact errHdr_prefix_field _
  · exact commit_status sc w _
  · intro r c hr
    exact commit_frame sc w _ r c hr

/-- Witness for C5 at a concrete failing environment, row and sheet. -/
theorem claim5_external_failure_witness :
    envExn.proc = ProcResult.exn (str "boom") (str "Traceback") (str "err") ∧
    envExn.writeErr = none ∧
    run_exe_on_batch envExn.proc =
      (str "[ERROR] Exception: " ++ str "boom" ++ str "\n" ++ str "Traceback" ++
        str "\n" ++ str "err", str "err") ∧
    (process_batch 2 [] 0 envExn).status = str "completed" ∧
    str "[ERROR]" <+: firstLineOf (process_batch 2 [] 0 envExn).output ∧
    str "[ERROR]" <+:
      (outputFieldsOf (process_batch 2 [] 0 envExn).output).headD [] ∧
    (commitResult 2 wsEmpty (process_batch 2 [] 0 envExn)).cells 2 2 =
      some (str "completed") ∧
    (∀ r c, r ≠ 2 →
      (commitResult 2 wsEmpty (process_batch 2 [] 0 envExn)).cells r c =
        wsEmpty.cells r c) := by
  have h := claim5_external_failure (str "boom") (str "Traceback") (str "err")
    envExn 2 0 2 [] wsEmpty rfl rfl
  exact ⟨rfl, rfl, h.1, h.2.1, h.2.2.1, h.2.2.2.1, h.2.2.2.2.1, h.2.2.2.2.2⟩

/-- Claim C9 (amended): on a store where every data row reads `completed`,
the dispatcher performs zero submissions (`next_to_submit` stays 0,
nothing ever in flight) and leaves every cell unchanged except the five
status-header cells of row 1, which always receive the fixed header names
— so the store is fully unchanged exactly when those header cells already
held the header names. -/
theorem claim9_amended (ws0 : Ws) (icc nCores : Nat)
    (oracle : Nat → Option ExecEnv) (schedule : List Nat)
    (hall : ∀ r, 2 ≤ r → r ≤ ws0.maxRow →
      statusLower (ws0.cells r (icc + 1)) = str "completed") :
    mainPending icc ws0 = [] ∧
    (mainRun icc nCores oracle ws0 schedule).nextToSubmit = 0 ∧
    (mainRun icc nCores oracle ws0 schedule).inflight = [] ∧
    (∀ r c, r ≠ 1 →
      (mainRun icc nCores oracle ws0 schedule).ws.cells r c = ws0.cells r c) ∧
    (∀ c, c < icc + 1 ∨ icc + 6 ≤ c →
      (mainRun icc nCores oracle ws0 schedule).ws.cells 1 c = ws0.cells 1 c) ∧
    (∀ i, i < 5 →
      (mainRun icc nCores oracle ws0 schedule).ws.cells 1 (icc + 1 + i) =
        some (STATUS_COL_HEADERS.getD i [])) := by
  have hpend : mainPending icc ws0 = [] := by
    unfold mainPending pendingOf
    rw [List.filter_eq_nil]
    intro p hp
    obtain ⟨hp2, hpM⟩ := mainBatches_row_bounds icc ws0 p hp
    simp only [decide_eq_true_eq]
    rw [mainWs3_status_of_completed icc ws0 p.1 hp2 hpM (hall p.1 hp2 hpM),
        hall p.1 hp2 hpM]
    decide
  have hfinal : mainRun icc nCores oracle ws0 schedule = mainInitState icc ws0 := by
    unfold mainRun mainRunK
    rw [hpend]
    have hz : min nCores ([] : List (Nat × List (Option Str))).length = 0 := by
      simp
    rw [hz]
    exact runSched_of_empty _ _ _ rfl
  refine ⟨hpend, by rw [hfinal]; rfl, by rw [hfinal]; rfl, ?_, ?_, ?_⟩
  · intro r c hr
    rw [hfinal]
    show (mainWs3 icc ws0).cells r c = ws0.cells r c
    by_cases hrin : 2 ≤ r ∧ r ≤ ws0.maxRow
    · by_cases hc : c = icc + 1
      · subst hc
        rw [mainWs3_status_of_completed icc ws0 r hrin.1 hrin.2
          (hall r hrin.1 hrin.2)]
      · rw [mainWs3_cells_data icc ws0 r c hrin.1 hrin.2,
            if_neg (fun hh => hc hh.1),
            mainWs2_cells_data icc ws0 r c hrin.1 hrin.2,
            if_neg (fun hh => hc hh.1)]
    · rw [mainWs3_cells_outside icc ws0 r c hrin, mainWs1_cells_ne1 icc ws0 r c hr]
  · intro c hc
    rw [hfinal]
    show (mainWs3 icc ws0).cells 1 c = ws0.cells 1 c
    have h1 : ¬ (2 ≤ 1 ∧ 1 ≤ ws0.maxRow) := by omega
    rw [mainWs3_cells_outside icc ws0 1 c h1]
    unfold mainWs1 ensure_status_columns
    rw [writeCells_cells, show STATUS_COL_HEADERS.length = 5 from rfl,
        if_neg (by omega)]
  · intro i hi
    rw [hfinal]
    show (mainWs3 icc ws0).cells 1 (icc + 1 + i) = some (STATUS_COL_HEADERS.getD i [])
    have h1 : ¬ (2 ≤ 1 ∧ 1 ≤ ws0.maxRow) := by omega
    rw [mainWs3_cells_outside icc ws0 1 (icc + 1 + i) h1]
    unfold mainWs1 ensure_status_columns
    rw [writeCells_cells, show STATUS_COL_HEADERS.length = 5 from rfl,
        if_pos ⟨rfl, by omega, by omega⟩,
        show icc + 1 + i - (icc + 1) = i from by omega]

/-- Witness for C9 (amended) on the concrete fully-completed store. -/
theorem claim9_amended_witness :
    mainPending 1 ws0C = [] ∧
    (mainRun 1 4 oracleFault ws0C []).nextToSubmit = 0 ∧
    (mainRun 1 4 oracleFault ws0C []).inflight = [] ∧
    (∀ r c, r ≠ 1 → (mainRun 1 4 oracleFault ws0C []).ws.cells r c = ws0C.cells r c) ∧
    (∀ c, c < 2 ∨ 7 ≤ c →
      (mainRun 1 4 oracleFault ws0C []).ws.cells 1 c = ws0C.cells 1 c) ∧
    (∀ i, i < 5 →
      (mainRun 1 4 oracleFault ws0C []).ws.cells 1 (2 + i) =
        some (STATUS_COL_HEADERS.getD i [])) :=
  claim9_amended ws0C 1 4 oracleFault []
    (fun r h2 hM => by
      have hr : r = 2 := by
        have hm : ws0C.maxRow = 2 := rfl
        omega
      subst hr
      decide)

/-- Claim C9, counterexample: on a store whose single item is already
`completed`, the dispatcher performs zero submissions, but it does not
leave the store's contents unchanged — `ensure_status_columns`
unconditionally writes the header names into row 1, so an empty header
cell becomes `"Status"`. -/
theorem claim9_counterexample :
    statusLower (ws0C.cells 2 2) = str "completed" ∧
    (mainPending 1 ws0C).length = 0 ∧
    (mainRun 1 4 oracleFault ws0C []).nextToSubmit = 0 ∧
    ws0C.cells 1 2 = none ∧
    (mainRun 1 4 oracleFault ws0C []).ws.cells 1 2 = some (str "Status") := by
  decide

end MCM
